import Mathlib

/-!
Verification of the reconciliation toolkit of the prometheus-operator
repository (package `pkg/k8s`): resource naming, metadata merge policy,
create-or-update write construction, finalizer patch generation, RBAC
capability checking and the StatefulSet immutable-field fallback.

Go strings are modelled as lists of characters (`Str`); all inputs that the
claims touch are ASCII, where one character is one byte, so `Char.toNat`
yields the byte that the Go code hashes.  Go maps are modelled as optional
lookup functions (`Gmap`), keeping the distinction between a nil map and an
empty map, which is observable in the code under verification.  Machine
integers are modelled as `Nat` reduced modulo `2 ^ 64` at every operation
that can overflow.
-/

/-- A Go string, as a list of characters (ASCII: one character = one byte). -/
abbrev Str := List Char

/-- The byte sequence of an ASCII string, as hashed by `xxhash.Write`. -/
def strBytes (s : Str) : List Nat := s.map Char.toNat

/-! ### xxHash64 (github.com/cespare/xxhash/v2, seed 0)

`UniqueDNS1123Label` hashes the raw input with xxHash64.  The algorithm is
embedded below over byte lists, with 64-bit modular arithmetic. -/

def xxPrime1 : Nat := 0x9E3779B185EBCA87
def xxPrime2 : Nat := 0xC2B2AE3D27D4EB4F
def xxPrime3 : Nat := 0x165667B19E3779F9
def xxPrime4 : Nat := 0x85EBCA77C2B2AE63
def xxPrime5 : Nat := 0x27D4EB2F165667C5

/-- Rotate a 64-bit value left by `r` bits. -/
def rotl64 (r x : Nat) : Nat :=
  ((x % 2 ^ 64) * 2 ^ r + (x % 2 ^ 64) / 2 ^ (64 - r)) % 2 ^ 64

/-- One xxHash64 accumulator round: `acc = rotl31(acc + input*prime2) * prime1`. -/
def xxRound (acc input : Nat) : Nat :=
  rotl64 31 ((acc + input * xxPrime2) % 2 ^ 64) * xxPrime1 % 2 ^ 64

/-- Merge one accumulator into the digest for inputs of 32 bytes or more. -/
def xxMergeRound (acc val : Nat) : Nat :=
  ((Nat.xor acc (xxRound 0 val)) * xxPrime1 + xxPrime4) % 2 ^ 64

/-- Final avalanche mixing of the 64-bit digest. -/
def xxAvalanche (h : Nat) : Nat :=
  let h := Nat.xor h (h / 2 ^ 33)
  let h := h * xxPrime2 % 2 ^ 64
  let h := Nat.xor h (h / 2 ^ 29)
  let h := h * xxPrime3 % 2 ^ 64
  Nat.xor h (h / 2 ^ 32)

/-- Little-endian value of a byte list (first byte is least significant). -/
def leNat : List Nat → Nat
  | [] => 0
  | b :: bs => b % 256 + 256 * leNat bs

/-- Main xxHash64 loop: consume 32-byte blocks into the four accumulators
while at least 32 bytes remain.  The fuel argument (instantiated with the
input length) only drives structural termination. -/
def xxMainLoop : Nat → Nat × Nat × Nat × Nat → List Nat → (Nat × Nat × Nat × Nat) × List Nat
  | 0, vs, bs => (vs, bs)
  | fuel + 1, (v1, v2, v3, v4), bs =>
    if 32 ≤ bs.length then
      xxMainLoop fuel
        (xxRound v1 (leNat (bs.take 8)),
         xxRound v2 (leNat ((bs.drop 8).take 8)),
         xxRound v3 (leNat ((bs.drop 16).take 8)),
         xxRound v4 (leNat ((bs.drop 24).take 8)))
        (bs.drop 32)
    else ((v1, v2, v3, v4), bs)

/-- Digest the at most three remaining bytes, then avalanche. -/
def xxSingles (h : Nat) : List Nat → Nat
  | [] => xxAvalanche h
  | b :: rest =>
      xxSingles (rotl64 11 (Nat.xor h ((b % 256) * xxPrime5 % 2 ^ 64)) * xxPrime1 % 2 ^ 64) rest

/-- Digest the tail of the input: 8-byte words while at least 8 bytes
remain, then one 4-byte word if at least 4 bytes remain, then single
bytes. -/
def xxTail (h : Nat) : List Nat → Nat
  | b0 :: b1 :: b2 :: b3 :: b4 :: b5 :: b6 :: b7 :: rest =>
      xxTail ((rotl64 27 (Nat.xor h (xxRound 0 (leNat [b0, b1, b2, b3, b4, b5, b6, b7])))
        * xxPrime1 + xxPrime4) % 2 ^ 64) rest
  | b0 :: b1 :: b2 :: b3 :: rest =>
      xxSingles ((rotl64 23 (Nat.xor h ((leNat [b0, b1, b2, b3]) * xxPrime1 % 2 ^ 64))
        * xxPrime2 + xxPrime3) % 2 ^ 64) rest
  | rest => xxSingles h rest

/-- xxHash64 with seed 0 of a byte sequence (`xxhash.Sum64`). -/
def xxh64 (bs : List Nat) : Nat :=
  let n := bs.length
  if 32 ≤ n then
    let s := xxMainLoop n
      ((xxPrime1 + xxPrime2) % 2 ^ 64, xxPrime2, 0, (2 ^ 64 - xxPrime1) % 2 ^ 64) bs
    let h := (rotl64 1 s.1.1 + rotl64 7 s.1.2.1 + rotl64 12 s.1.2.2.1 + rotl64 18 s.1.2.2.2)
      % 2 ^ 64
    let h := xxMergeRound h s.1.1
    let h := xxMergeRound h s.1.2.1
    let h := xxMergeRound h s.1.2.2.1
    let h := xxMergeRound h s.1.2.2.2
    xxTail ((h + n) % 2 ^ 64) s.2
  else
    xxTail ((xxPrime5 + n) % 2 ^ 64) bs

/-! ### Hexadecimal rendering (Go `fmt.Sprintf("%x", v)`) -/

/-- Lowercase hex digit for a value below 16. -/
def hexDigitChar (n : Nat) : Char :=
  if n < 10 then Char.ofNat (48 + n) else Char.ofNat (87 + n)

/-- Minimal hex digits of `n`, most significant first (empty for 0); the
fuel bounds the number of digits and is instantiated large enough for any
64-bit value. -/
def hexDigitsAux : Nat → Nat → List Char
  | 0, _ => []
  | fuel + 1, n => if n = 0 then [] else hexDigitsAux fuel (n / 16) ++ [hexDigitChar (n % 16)]

/-- `fmt.Sprintf("%x", n)`: minimal lowercase hex rendering, `"0"` for 0. -/
def natToHex (n : Nat) : List Char :=
  if n = 0 then ['0'] else hexDigitsAux 64 n

/-! ### Resource Namer (`pkg/k8s/resource_namer.go`) -/

/-- `strings.ToLower` restricted to ASCII: map `A`-`Z` to `a`-`z`. -/
def goToLower (c : Char) : Char :=
  if 'A' ≤ c ∧ c ≤ 'Z' then Char.ofNat (c.toNat + 32) else c

/-- Membership in the character class `[-a-z0-9]` of the
`invalidDNS1123Characters` regular expression. -/
def isDNSChar (c : Char) : Bool :=
  c = '-' || ('a' ≤ c && c ≤ 'z') || ('0' ≤ c && c ≤ '9')

/-- `invalidDNS1123Characters.ReplaceAllString(s, "-")`: replace every
maximal run of characters outside `[-a-z0-9]` by a single hyphen.  The
flag records whether the previous character was part of such a run. -/
def collapseInvalid : Bool → List Char → List Char
  | _, [] => []
  | inRun, c :: rest =>
    if isDNSChar c then c :: collapseInvalid false rest
    else if inRun then collapseInvalid true rest
    else '-' :: collapseInvalid true rest

/-- `strings.TrimRight(s, "-")`. -/
def trimRightHyphens (s : Str) : Str :=
  (s.reverse.dropWhile (· = '-')).reverse

/-- `strings.Trim(s, "-")`. -/
def trimHyphens (s : Str) : Str :=
  ((s.dropWhile (· = '-')).reverse.dropWhile (· = '-')).reverse

/-- `ResourceNamer` with its configured name pfx. -/
structure ResourceNamer where
  pfx : Str

/-- `ResourceNamer.sanitizedLabel`: prepend the trimmed pfx and a hyphen
when a pfx is configured, lowercase, collapse illegal runs to one hyphen,
trim leading and trailing hyphens. -/
def ResourceNamer.sanitizedLabel (rn : ResourceNamer) (name : Str) : Str :=
  let name := if rn.pfx ≠ [] then trimRightHyphens rn.pfx ++ '-' :: name else name
  trimHyphens (collapseInvalid false (name.map goToLower))

/-- `validation.DNS1123LabelMaxLength`. -/
def dns1123LabelMaxLength : Nat := 63

/-- Alphanumeric lowercase: `[a-z0-9]`. -/
def isLowerAlnum (c : Char) : Bool :=
  ('a' ≤ c && c ≤ 'z') || ('0' ≤ c && c ≤ '9')

/-- The DNS-1123 label grammar `[a-z0-9]([-a-z0-9]*[a-z0-9])?`: nonempty,
every character in `[-a-z0-9]`, first and last character alphanumeric. -/
def matchesDNS1123Grammar : Str → Bool
  | [] => false
  | c :: cs => isLowerAlnum c && isLowerAlnum ((c :: cs).getLastD '-') && (c :: cs).all isDNSChar

/-- `validation.IsDNS1123Label` succeeds: length at most 63 and the label
grammar matches. -/
def isDNS1123Label (s : Str) : Bool :=
  s.length ≤ dns1123LabelMaxLength && matchesDNS1123Grammar s

/-- `ResourceNamer.UniqueDNS1123Label`.  The result pairs the returned
string with the error flag (`true` when a `ValidationError` is returned):
hash the raw input, prepend a hyphen to the hex rendering and keep the
first 9 characters, sanitize, truncate the sanitized name to `63 - 9`
characters, append the suffix and validate. -/
def ResourceNamer.uniqueDNS1123Label (rn : ResourceNamer) (name : Str) : Str × Bool :=
  let h := '-' :: natToHex (xxh64 (strBytes name))
  let h := h.take 9
  let name := rn.sanitizedLabel name
  let name := if dns1123LabelMaxLength - 9 < name.length
    then name.take (dns1123LabelMaxLength - 9) else name
  let name := name ++ h
  if isDNS1123Label name then (name, false) else ([], true)

/-- `ResourceNamer.DNS1123Label`: sanitize, hard-truncate to 63
characters, and validate (the string is returned together with the error
flag, mirroring Go's two return values). -/
def ResourceNamer.dns1123Label (rn : ResourceNamer) (name : Str) : Str × Bool :=
  let name := rn.sanitizedLabel name
  let name := if dns1123LabelMaxLength < name.length
    then name.take dns1123LabelMaxLength else name
  (name, !isDNS1123Label name)

/-- Modelled from the spec sentence of claim C1 only (for comparison with
the code): a hyphen followed by the 8 lowest-order hex digits of the
64-bit hash, i.e. the hex rendering of the value modulo `2 ^ 32` padded to
8 digits. -/
def lowOrder8HexSuffix (n : Nat) : List Char :=
  let digits := natToHex (n % 2 ^ 32)
  '-' :: (List.replicate (8 - digits.length) '0' ++ digits)

/-- C1 counterexample: on input `"NAME"` the function returns
`"name-4cfd3574"` (the 8 highest-order hex digits of the hash
`0x4cfd357450b2090a`), while the claimed "8 lowest-order hex digits" rule
prescribes `"name-50b2090a"`, a different string. -/
theorem uniqueDNS1123Label_lowOrder_counterexample :
  (ResourceNamer.uniqueDNS1123Label ⟨[]⟩ "NAME".data).1 = "name-4cfd3574".data
  ∧ ResourceNamer.sanitizedLabel ⟨[]⟩ "NAME".data
      ++ lowOrder8HexSuffix (xxh64 (strBytes "NAME".data)) = "name-50b2090a".data
  ∧ "name-50b2090a".data ≠ "name-4cfd3574".data := by
  refine ⟨by decide, by decide, by decide⟩

/-- C1 (amended): `UniqueDNS1123Label` hashes the original unsanitized
input bytes with xxHash64, renders the suffix as a hyphen followed by the
first 8 characters of the hash's hex rendering (its highest-order hex
digits), truncates the sanitized name to `63 - 9 = 54` characters, returns
their concatenation when it validates, and the three quoted examples hold. -/
theorem uniqueDNS1123Label_spec :
  (∀ (rn : ResourceNamer) (name : Str),
    rn.uniqueDNS1123Label name =
      (let s := rn.sanitizedLabel name
       let s := if 54 < s.length then s.take 54 else s
       let out := s ++ '-' :: (natToHex (xxh64 (strBytes name))).take 8
       if isDNS1123Label out then (out, false) else ([], true)))
  ∧ ResourceNamer.uniqueDNS1123Label ⟨[]⟩ "NAME".data = ("name-4cfd3574".data, false)
  ∧ ResourceNamer.uniqueDNS1123Label ⟨[]⟩ "foo--".data = ("foo-e705c7c8".data, false)
  ∧ ResourceNamer.uniqueDNS1123Label ⟨[]⟩ "foo^%#$bar".data = ("foo-bar-f3e212b1".data, false) := by
  refine ⟨fun rn name => rfl, by decide, by decide, by decide⟩


/-- A label accepted by `validation.IsDNS1123Label` matches the grammar
and has length at most 63. -/
theorem isDNS1123Label_grammar {c : Str} (h : isDNS1123Label c = true) :
    matchesDNS1123Grammar c = true ∧ c.length ≤ 63 := by
  simp only [isDNS1123Label, dns1123LabelMaxLength, Bool.and_eq_true, decide_eq_true_eq] at h
  exact ⟨h.2, h.1⟩

/-- A returned pair of the shape produced by `DNS1123Label` carries a
grammatical label whenever its error flag is false. -/
theorem validate_pair_shape {c s : Str}
    (heq : (c, !isDNS1123Label c) = (s, false)) :
    matchesDNS1123Grammar s = true ∧ s.length ≤ 63 := by
  rw [Prod.mk.injEq] at heq
  obtain ⟨rfl, h2⟩ := heq
  cases hb : isDNS1123Label c
  · rw [hb] at h2; exact absurd h2 (by decide)
  · exact isDNS1123Label_grammar hb

/-- A returned pair of the shape produced by `UniqueDNS1123Label` carries
a grammatical label whenever its error flag is false. -/
theorem validate_ite_shape {c s : Str}
    (heq : (if isDNS1123Label c then (c, false) else (([] : Str), true)) = (s, false)) :
    matchesDNS1123Grammar s = true ∧ s.length ≤ 63 := by
  cases hb : isDNS1123Label c
  · rw [hb] at heq; simp at heq
  · rw [hb] at heq
    simp only [if_true] at heq
    rw [Prod.mk.injEq] at heq
    obtain ⟨rfl, -⟩ := heq
    exact isDNS1123Label_grammar hb

/-- C2: whenever `DNS1123Label` or `UniqueDNS1123Label` returns without
error the returned string matches the DNS-1123 label grammar and has
length at most 63, and when the candidate label (sanitized, truncated,
and for the unique variant suffixed by the hash) violates the grammar the
function reports a validation error instead of returning a legal-looking
label (the unique variant then returns the empty string). -/
theorem dnsLabels_valid (rn : ResourceNamer) (name : Str) :
  (∀ s, rn.dns1123Label name = (s, false) →
    matchesDNS1123Grammar s = true ∧ s.length ≤ 63)
  ∧ (∀ s, rn.uniqueDNS1123Label name = (s, false) →
    matchesDNS1123Grammar s = true ∧ s.length ≤ 63)
  ∧ (isDNS1123Label
      (let t := rn.sanitizedLabel name
       if 63 < t.length then t.take 63 else t) = false →
    (rn.dns1123Label name).2 = true)
  ∧ (isDNS1123Label
      ((let t := rn.sanitizedLabel name
        if 63 - 9 < t.length then t.take (63 - 9) else t)
        ++ ('-' :: natToHex (xxh64 (strBytes name))).take 9) = false →
    rn.uniqueDNS1123Label name = ([], true)) := by
  refine ⟨?_, ?_, ?_, ?_⟩
  · intro s heq
    exact validate_pair_shape (by simpa only [ResourceNamer.dns1123Label] using heq)
  · intro s heq
    exact validate_ite_shape (by simpa only [ResourceNamer.uniqueDNS1123Label] using heq)
  · intro h
    simp only [ResourceNamer.dns1123Label, dns1123LabelMaxLength]
    simp only [dns1123LabelMaxLength] at h ⊢
    rw [h]
    rfl
  · intro h
    simp only [ResourceNamer.uniqueDNS1123Label, dns1123LabelMaxLength]
    simp only [dns1123LabelMaxLength] at h ⊢
    rw [h]
    rfl

/-- C2 witness: on `"NAME"` both functions succeed with a legal label of
length at most 63; on `"@!"` (which sanitizes to the empty string) both
report a validation error. -/
theorem dnsLabels_valid_witness :
  matchesDNS1123Grammar "name".data = true ∧ ("name".data : Str).length ≤ 63
  ∧ matchesDNS1123Grammar "name-4cfd3574".data = true
  ∧ ("name-4cfd3574".data : Str).length ≤ 63
  ∧ (ResourceNamer.dns1123Label ⟨[]⟩ "@!".data).2 = true
  ∧ ResourceNamer.uniqueDNS1123Label ⟨[]⟩ "@!".data = ([], true) := by
  have h1 := (dnsLabels_valid ⟨[]⟩ "NAME".data).1 "name".data (by decide)
  have h2 := (dnsLabels_valid ⟨[]⟩ "NAME".data).2.1 "name-4cfd3574".data (by decide)
  have h3 := (dnsLabels_valid ⟨[]⟩ "@!".data).2.2.1 (by decide)
  have h4 := (dnsLabels_valid ⟨[]⟩ "@!".data).2.2.2 (by decide)
  exact ⟨h1.1, h1.2, h2.1, h2.2, h3, h4⟩

/-! ### Metadata merge policy (`mergeMetadata`, `mergeMaps`,
`mergeMapsByPrefix`, `mergeKubectlAnnotations`)

A Go `map[string]string` is modelled as `Gmap`: `none` is a nil map,
`some f` is a (possibly empty) map with lookup function `f`.  The Go code
mutates the `to` map in place; the model therefore exposes the result of
`mergeMapsByPrefix` both as the value stored by the caller and, where the
aliasing is observable (`updateStatefulSet`), as the new value of the
non-nil `to` map. -/

/-- A Go string-to-string map value: `none` models a nil map. -/
abbrev Smap := String → Option String

/-- Optional map: `none` models Go's nil map. -/
abbrev Gmap := Option Smap

/-- Map indexing: looking up a key in a nil map yields no value. -/
def glookup (m : Gmap) (k : String) : Option String :=
  match m with
  | none => none
  | some f => f k

/-- `strings.HasPrefix` on character lists. -/
def strHasPfx (p s : List Char) : Bool :=
  match p with
  | [] => true
  | pc :: ps =>
    match s with
    | [] => false
    | c :: cs => pc = c && strHasPfx ps cs

/-- `strings.HasPrefix` on strings. -/
def goHasPfxS (p s : String) : Bool := strHasPfx p.data s.data

/-- `mergeMapsByPrefix(from, to, p)`: treat nil maps as empty, then insert
into `to` every entry of `from` whose key starts with `p` (so `from` wins
on such keys).  The Go function returns the mutated `to` map; the model
returns its lookup function. -/
def mergeMapsByPrefix (fromM toM : Gmap) (p : String) : Smap :=
  fun k =>
    if goHasPfxS p k && (glookup fromM k).isSome then glookup fromM k else glookup toM k

/-- `mergeMaps(new, old)`: `mergeMapsByPrefix` with the empty pfx, so
every entry of `new` is inserted into `old`. -/
def mergeMaps (newM oldM : Gmap) : Smap := mergeMapsByPrefix newM oldM ""

/-- A Go `*bool` field of an owner reference: `none` is a nil pointer,
`some (addr, b)` a pointer with allocation address `addr` to the value
`b`.  Distinct allocations never share an address, so an address models
the pointer's identity. -/
abbrev BoolPtr := Option (Nat × Bool)

/-- Go equality on `*bool` values: nil equals nil, and two non-nil
pointers are equal exactly when they are the same allocation; the
pointed-to values are not consulted. -/
def boolPtrEq : BoolPtr → BoolPtr → Bool
  | none, none => true
  | some (a, _), some (b, _) => a = b
  | _, _ => false

/-- An owner reference; the two flag fields are pointers, as in
`metav1.OwnerReference`. -/
structure OwnerReference where
  apiVersion : String
  kind : String
  name : String
  uid : String
  controller : BoolPtr
  blockOwnerDeletion : BoolPtr
deriving DecidableEq

/-- Go map-key equality on `metav1.OwnerReference`: field-wise equality,
where the two pointer-typed flag fields compare by pointer identity. -/
def ownerRefGoEq (r s : OwnerReference) : Bool :=
  r.apiVersion = s.apiVersion && r.kind = s.kind && r.name = s.name && r.uid = s.uid
    && boolPtrEq r.controller s.controller
    && boolPtrEq r.blockOwnerDeletion s.blockOwnerDeletion

/-- The field values of an owner reference — its full identity as
printed, with the flag pointers dereferenced. -/
def OwnerReference.valueView (r : OwnerReference) :
    String × String × String × String × Option Bool × Option Bool :=
  (r.apiVersion, r.kind, r.name, r.uid,
   r.controller.map Prod.snd, r.blockOwnerDeletion.map Prod.snd)

/-- Object metadata: version token, labels, annotations, owner
references. -/
structure ObjectMeta where
  resourceVersion : String
  labels : Gmap
  annotations : Gmap
  ownerReferences : List OwnerReference

/-- `mergeMetadata(newObj, oldObj)`: copy the old resource version onto
the new object and set the new object's labels and annotations to the
merge (new entries inserted into the old map, new wins on collision).
The Go function mutates `newObj`; the model returns the updated value. -/
def mergeMetadata (newObj : ObjectMeta) (oldObj : ObjectMeta) : ObjectMeta :=
  { newObj with
    resourceVersion := oldObj.resourceVersion
    labels := some (mergeMaps newObj.labels oldObj.labels)
    annotations := some (mergeMaps newObj.annotations oldObj.annotations) }

/-- Lookup function of a concrete association list (used for witnesses). -/
def assocLookup : List (String × String) → String → Option String
  | [], _ => none
  | (k, v) :: rest, key => if k = key then some v else assocLookup rest key

/-- A concrete non-nil map built from an association list. -/
def mapOf (l : List (String × String)) : Gmap := some (assocLookup l)

/-- The empty pfx is a pfx of every string. -/
theorem goHasPfxS_empty (s : String) : goHasPfxS "" s = true := rfl

/-- When the key starts with the pfx and is bound in `from`, the merged
map carries the `from` value. -/
theorem mergeMapsByPrefix_from {fromM toM : Gmap} {p k : String} {v : String}
    (hp : goHasPfxS p k = true) (hv : glookup fromM k = some v) :
    mergeMapsByPrefix fromM toM p k = some v := by
  simp [mergeMapsByPrefix, hp, hv]

/-- When the key is not bound in `from`, the merged map falls back to
`to`. -/
theorem mergeMapsByPrefix_to {fromM toM : Gmap} {p k : String}
    (hv : glookup fromM k = none) :
    mergeMapsByPrefix fromM toM p k = glookup toM k := by
  simp [mergeMapsByPrefix, hv]

/-- C3: `mergeMetadata` copies the observed resource version onto the
desired object, and merges labels and annotations as the union of the
observed and desired mappings where the desired value wins on a shared
key and observed-only keys keep their observed value. -/
theorem mergeMetadata_spec (desired observed : ObjectMeta) (k : String) :
  (mergeMetadata desired observed).resourceVersion = observed.resourceVersion
  ∧ (∀ v, glookup desired.labels k = some v →
      glookup (mergeMetadata desired observed).labels k = some v)
  ∧ (glookup desired.labels k = none →
      glookup (mergeMetadata desired observed).labels k = glookup observed.labels k)
  ∧ (∀ v, glookup desired.annotations k = some v →
      glookup (mergeMetadata desired observed).annotations k = some v)
  ∧ (glookup desired.annotations k = none →
      glookup (mergeMetadata desired observed).annotations k
        = glookup observed.annotations k) := by
  refine ⟨rfl, ?_, ?_, ?_, ?_⟩
  · intro v hv
    exact mergeMapsByPrefix_from (goHasPfxS_empty k) hv
  · intro hv
    exact mergeMapsByPrefix_to hv
  · intro v hv
    exact mergeMapsByPrefix_from (goHasPfxS_empty k) hv
  · intro hv
    exact mergeMapsByPrefix_to hv

/-- C3 witness: with observed labels `{app ↦ ksm, keep ↦ v1}` and desired
labels `{app ↦ overridden}`, the merge keeps the desired value on the
shared key `app`, retains the observed-only key `keep`, and copies the
observed resource version `"42"`. -/
theorem mergeMetadata_spec_witness :
  (mergeMetadata
      ⟨"", mapOf [("app", "overridden")], none, []⟩
      ⟨"42", mapOf [("app", "ksm"), ("keep", "v1")], none, []⟩).resourceVersion = "42"
  ∧ glookup (mergeMetadata
      ⟨"", mapOf [("app", "overridden")], none, []⟩
      ⟨"42", mapOf [("app", "ksm"), ("keep", "v1")], none, []⟩).labels "app"
      = some "overridden"
  ∧ glookup (mergeMetadata
      ⟨"", mapOf [("app", "overridden")], none, []⟩
      ⟨"42", mapOf [("app", "ksm"), ("keep", "v1")], none, []⟩).labels "keep"
      = some "v1" := by
  have h1 := (mergeMetadata_spec
    ⟨"", mapOf [("app", "overridden")], none, []⟩
    ⟨"42", mapOf [("app", "ksm"), ("keep", "v1")], none, []⟩ "app")
  have h2 := (mergeMetadata_spec
    ⟨"", mapOf [("app", "overridden")], none, []⟩
    ⟨"42", mapOf [("app", "ksm"), ("keep", "v1")], none, []⟩ "keep")
  refine ⟨h1.1, h1.2.1 "overridden" (by decide), (h2.2.2.1 (by decide)).trans (by decide)⟩

/-! ### Owner-reference merge and the create-or-update write model
(`pkg/k8s/network.go`) -/

/-- `mergeOwnerReferences(oldObj, newObj)`: Go builds a
`map[metav1.OwnerReference]bool` keyed by the old references, then
appends to `oldObj` every new reference whose map lookup misses.  The
fold mirrors the append loop; membership is always tested against the
original `oldObj`, under Go map-key equality (`ownerRefGoEq`), which
compares the flag pointers by address. -/
def mergeOwnerReferences (oldObj newObj : List OwnerReference) : List OwnerReference :=
  newObj.foldl
    (fun acc r => if oldObj.any (fun s => ownerRefGoEq s r) then acc else acc ++ [r]) oldObj

/-- The fold in `mergeOwnerReferences` appends exactly the filtered new
references after any accumulator. -/
theorem mergeOwnerReferences_foldl (oldObj : List OwnerReference) :
    ∀ (newObj acc : List OwnerReference),
    newObj.foldl
        (fun acc r => if oldObj.any (fun s => ownerRefGoEq s r) then acc else acc ++ [r]) acc
      = acc ++ newObj.filter (fun r => !oldObj.any (fun s => ownerRefGoEq s r)) := by
  intro newObj
  induction newObj with
  | nil => intro acc; simp
  | cons r rest ih =>
    intro acc
    rw [List.foldl_cons, List.filter_cons]
    cases hr : oldObj.any (fun s => ownerRefGoEq s r)
    · rw [if_neg (by decide), ih]
      simp
    · rw [if_pos rfl, ih]
      simp

/-- C6 counterexample: an observed reference and a desired reference
with identical field values whose controller flags are distinct
allocations (addresses 1 and 2) pointing to the same value `true`.  The
desired reference's full identity is already present among the observed
references, yet the merge appends it as a duplicate instead of filtering
it out, because the map lookup compares the flag pointers by address. -/
theorem mergeOwnerReferences_valueEq_counterexample :
  OwnerReference.valueView ⟨"apps/v1", "StatefulSet", "prom", "u1", some (1, true), none⟩
    = OwnerReference.valueView ⟨"apps/v1", "StatefulSet", "prom", "u1", some (2, true), none⟩
  ∧ mergeOwnerReferences
      [⟨"apps/v1", "StatefulSet", "prom", "u1", some (1, true), none⟩]
      [⟨"apps/v1", "StatefulSet", "prom", "u1", some (2, true), none⟩]
    = [⟨"apps/v1", "StatefulSet", "prom", "u1", some (1, true), none⟩,
       ⟨"apps/v1", "StatefulSet", "prom", "u1", some (2, true), none⟩]
  ∧ ([⟨"apps/v1", "StatefulSet", "prom", "u1", some (1, true), none⟩,
      ⟨"apps/v1", "StatefulSet", "prom", "u1", some (2, true), none⟩]
      : List OwnerReference)
    ≠ [⟨"apps/v1", "StatefulSet", "prom", "u1", some (1, true), none⟩] := by
  refine ⟨by decide, by decide, by decide⟩

/-- C6 (amended): `mergeOwnerReferences` returns the observed references
first, in order and unchanged, followed by exactly the desired
references not already present among the observed references under Go
map-key equality — field-wise equality in which the controller and
block-owner-deletion pointer fields compare by pointer identity (equal
only when both nil or the same allocation) — in desired order; hence a
desired reference that is value-equal to an observed one but carries
freshly allocated flag pointers is appended as a duplicate, and no
observed reference is ever removed. -/
theorem mergeOwnerReferences_spec (observedRefs desiredRefs : List OwnerReference) :
  mergeOwnerReferences observedRefs desiredRefs
    = observedRefs
      ++ desiredRefs.filter (fun r => !observedRefs.any (fun s => ownerRefGoEq s r))
  ∧ ∀ r, r ∈ observedRefs → r ∈ mergeOwnerReferences observedRefs desiredRefs := by
  constructor
  · exact mergeOwnerReferences_foldl observedRefs desiredRefs observedRefs
  · intro r hr
    have h := mergeOwnerReferences_foldl observedRefs desiredRefs observedRefs
    unfold mergeOwnerReferences
    rw [h]
    exact List.mem_append_left _ hr

/-- C6 witness: the merge keeps the observed reference; a desired
reference whose flag pointer aliases the observed one's (same address 1)
is deduplicated, a brand-new reference is appended, and a value-equal
reference with a fresh flag allocation (address 2) is appended as a
duplicate. -/
theorem mergeOwnerReferences_spec_witness :
  mergeOwnerReferences
      [⟨"apps/v1", "StatefulSet", "prom", "u1", some (1, true), none⟩]
      [⟨"apps/v1", "StatefulSet", "prom", "u1", some (1, true), none⟩,
       ⟨"v1", "Service", "web", "u2", none, none⟩,
       ⟨"apps/v1", "StatefulSet", "prom", "u1", some (2, true), none⟩]
    = [⟨"apps/v1", "StatefulSet", "prom", "u1", some (1, true), none⟩,
       ⟨"v1", "Service", "web", "u2", none, none⟩,
       ⟨"apps/v1", "StatefulSet", "prom", "u1", some (2, true), none⟩]
  ∧ (⟨"apps/v1", "StatefulSet", "prom", "u1", some (1, true), none⟩ : OwnerReference)
      ∈ mergeOwnerReferences
      [⟨"apps/v1", "StatefulSet", "prom", "u1", some (1, true), none⟩]
      [⟨"v1", "Service", "web", "u2", none, none⟩] := by
  constructor
  · rw [(mergeOwnerReferences_spec _ _).1]
    decide
  · exact (mergeOwnerReferences_spec _ _).2 _ (by decide)

/-- A Service spec: the four immutable fields plus the ports that the
desired object legitimately controls. -/
structure ServiceSpec where
  clusterIP : String
  clusterIPs : List String
  ipFamilies : List String
  ipFamilyPolicy : Option String
  ports : List (String × Nat)

/-- A Service object. -/
structure Service where
  meta : ObjectMeta
  spec : ServiceSpec

/-- A write issued by a reconcile step. -/
inductive WriteOp (α : Type) where
  | create (obj : α)
  | update (obj : α)
deriving DecidableEq

/-- One iteration of the `CreateOrUpdateService` retry body, given the
outcome of the initial Get (`none` models NotFound; other Get errors
abort the iteration and are not modelled).  When the service exists, the
four immutable spec fields are copied from it, owner references are
merged, and the metadata merge policy is applied before the update. -/
def createOrUpdateServiceWrite (observed : Option Service) (svc : Service) : WriteOp Service :=
  match observed with
  | none => .create svc
  | some service =>
    let svc := { svc with spec :=
      { svc.spec with
        ipFamilies := service.spec.ipFamilies
        ipFamilyPolicy := service.spec.ipFamilyPolicy
        clusterIP := service.spec.clusterIP
        clusterIPs := service.spec.clusterIPs } }
    let svc := { svc with meta :=
      { svc.meta with ownerReferences :=
          mergeOwnerReferences service.meta.ownerReferences svc.meta.ownerReferences } }
    let svc := { svc with meta := mergeMetadata svc.meta service.meta }
    .update svc

/-- C4: when the service already exists, the object written by
`CreateOrUpdateService` carries the observed service's ClusterIP,
ClusterIPs, IPFamilies and IPFamilyPolicy, whatever the desired service
specified for those fields. -/
theorem createOrUpdateService_immutable (observed desired : Service) :
  ∃ w, createOrUpdateServiceWrite (some observed) desired = WriteOp.update w
    ∧ w.spec.clusterIP = observed.spec.clusterIP
    ∧ w.spec.clusterIPs = observed.spec.clusterIPs
    ∧ w.spec.ipFamilies = observed.spec.ipFamilies
    ∧ w.spec.ipFamilyPolicy = observed.spec.ipFamilyPolicy
    ∧ w.spec.ports = desired.spec.ports := by
  exact ⟨_, rfl, rfl, rfl, rfl, rfl, rfl⟩

/-- An EndpointSlice object: its name and metadata. -/
structure EndpointSlice where
  name : String
  meta : ObjectMeta

/-- The observable behaviour of one `CreateOrUpdateEndpointSlice` retry
iteration: whether a Get was issued, and the write performed. -/
structure SliceReconcileTrace where
  didGet : Bool
  write : WriteOp EndpointSlice

/-- One iteration of the `CreateOrUpdateEndpointSlice` retry body, given
the outcome the Get would produce (`none` models NotFound).  An empty
name short-circuits to an immediate create of the desired object. -/
def createOrUpdateEndpointSliceStep (getResult : Option EndpointSlice)
    (eps : EndpointSlice) : SliceReconcileTrace :=
  if eps.name = "" then ⟨false, .create eps⟩
  else
    match getResult with
    | none => ⟨true, .create eps⟩
    | some endpoints => ⟨true, .update { eps with meta := mergeMetadata eps.meta endpoints.meta }⟩

/-- C10: a desired EndpointSlice with an empty name is created
immediately: no read of an observed object happens, no metadata merge is
applied, and the created object is the desired object unchanged. -/
theorem createOrUpdateEndpointSlice_emptyName (getResult : Option EndpointSlice)
    (eps : EndpointSlice) (h : eps.name = "") :
  createOrUpdateEndpointSliceStep getResult eps = ⟨false, WriteOp.create eps⟩ := by
  simp [createOrUpdateEndpointSliceStep, h]

/-- C10 witness: the empty-name short-circuit on a concrete slice, even
when an observed object with different metadata exists. -/
theorem createOrUpdateEndpointSlice_emptyName_witness :
  createOrUpdateEndpointSliceStep
      (some ⟨"live", ⟨"7", mapOf [("a", "b")], none, []⟩⟩)
      ⟨"", ⟨"", none, none, []⟩⟩
    = ⟨false, WriteOp.create ⟨"", ⟨"", none, none, []⟩⟩⟩ :=
  createOrUpdateEndpointSlice_emptyName
    (some ⟨"live", ⟨"7", mapOf [("a", "b")], none, []⟩⟩)
    ⟨"", ⟨"", none, none, []⟩⟩ rfl

/-! ### Finalizer patch generation (`pkg/k8s/finalizer.go`)

Patch payloads are modelled as the operation lists that the Go code
marshals to JSON. -/

/-- A JSON patch operation. -/
inductive PatchOp where
  | addList (path : String) (value : List String)
  | add (path : String) (value : String)
  | test (path : String) (value : String)
  | remove (path : String)
deriving DecidableEq

/-- `FinalizerAddPatch`: no operations when the finalizer is already
present (the empty payload), one operation setting the whole field to the
one-element list when the list is empty, otherwise one append
operation. -/
def FinalizerAddPatch (finalizers : List String) (finalizerName : String) : List PatchOp :=
  if finalizerName ∈ finalizers then []
  else if finalizers.length = 0 then
    [.addList "/metadata/finalizers" [finalizerName]]
  else
    [.add "/metadata/finalizers/-" finalizerName]

/-- The scan of `FinalizerDeletePatch`, carrying the current index. -/
def finalizerDeleteAux (finalizerName : String) : Nat → List String → Option (List PatchOp)
  | _, [] => none
  | i, f :: rest =>
    if f = finalizerName then
      some [.test ("/metadata/finalizers/" ++ toString i) finalizerName,
            .remove ("/metadata/finalizers/" ++ toString i)]
    else finalizerDeleteAux finalizerName (i + 1) rest

/-- `FinalizerDeletePatch`: `none` models the nil payload returned when
the finalizer is absent; otherwise a test at the first matching index
followed by a remove at that index. -/
def FinalizerDeletePatch (finalizers : List String) (finalizerName : String) :
    Option (List PatchOp) :=
  finalizerDeleteAux finalizerName 0 finalizers

/-- The scan returns `none` exactly when the finalizer is absent. -/
theorem finalizerDeleteAux_not_mem (finalizerName : String) :
    ∀ (l : List String) (i : Nat), finalizerName ∉ l →
    finalizerDeleteAux finalizerName i l = none := by
  intro l
  induction l with
  | nil => intro i _; rfl
  | cons f rest ih =>
    intro i hmem
    have hf : ¬ f = finalizerName := fun h => hmem (h ▸ List.mem_cons_self f rest)
    simp only [finalizerDeleteAux, if_neg hf]
    exact ih (i + 1) (fun h => hmem (List.mem_cons_of_mem f h))

/-- The scan starting at base index `i` finds the first match at relative
position `j` and emits the patch for absolute index `i + j`. -/
theorem finalizerDeleteAux_first (finalizerName : String) :
    ∀ (l : List String) (i j : Nat), l[j]? = some finalizerName →
    (∀ m, m < j → l[m]? ≠ some finalizerName) →
    finalizerDeleteAux finalizerName i l
      = some [.test ("/metadata/finalizers/" ++ toString (i + j)) finalizerName,
              .remove ("/metadata/finalizers/" ++ toString (i + j))] := by
  intro l
  induction l with
  | nil => intro i j hj _; simp at hj
  | cons f rest ih =>
    intro i j hj hfirst
    by_cases hf : f = finalizerName
    · have hj0 : j = 0 := by
        by_contra hne
        exact hfirst 0 (Nat.pos_of_ne_zero hne) (by simpa using congrArg some hf)
      subst hj0 hf
      simp [finalizerDeleteAux]
    · have hj0 : j ≠ 0 := by
        intro h
        subst h
        simp only [List.getElem?_cons_zero] at hj
        exact hf (Option.some.injEq .. ▸ hj)
      obtain ⟨j', rfl⟩ := Nat.exists_eq_succ_of_ne_zero hj0
      simp only [finalizerDeleteAux, if_neg hf]
      have := ih (i + 1) j' (by simpa using hj)
        (fun m hm => by simpa using hfirst (m + 1) (Nat.succ_lt_succ hm))
      rw [this]
      have harith : i + 1 + j' = i + (j' + 1) := by omega
      rw [harith]

/-- C5: `FinalizerAddPatch` yields no operations when the name is already
present, one whole-field add of the one-element list on an empty list,
and otherwise one append; `FinalizerDeletePatch` yields `none` when the
name is absent, and at the first (smallest) matching index exactly a test
of that index followed by a remove of that index. -/
theorem finalizerPatches_spec (finalizers : List String) (finalizerName : String) :
  (finalizerName ∈ finalizers → FinalizerAddPatch finalizers finalizerName = [])
  ∧ (finalizers = [] →
      FinalizerAddPatch finalizers finalizerName
        = [.addList "/metadata/finalizers" [finalizerName]])
  ∧ (finalizerName ∉ finalizers → finalizers ≠ [] →
      FinalizerAddPatch finalizers finalizerName
        = [.add "/metadata/finalizers/-" finalizerName])
  ∧ (finalizerName ∉ finalizers →
      FinalizerDeletePatch finalizers finalizerName = none)
  ∧ (∀ (i : Nat), finalizers[i]? = some finalizerName →
      (∀ m, m < i → finalizers[m]? ≠ some finalizerName) →
      FinalizerDeletePatch finalizers finalizerName
        = some [.test ("/metadata/finalizers/" ++ toString i) finalizerName,
                .remove ("/metadata/finalizers/" ++ toString i)]) := by
  refine ⟨?_, ?_, ?_, ?_, ?_⟩
  · intro h
    simp [FinalizerAddPatch, h]
  · intro h
    subst h
    simp [FinalizerAddPatch]
  · intro h hne
    simp [FinalizerAddPatch, h, List.length_eq_zero, hne]
  · intro h
    exact finalizerDeleteAux_not_mem finalizerName finalizers 0 h
  · intro i hi hfirst
    have := finalizerDeleteAux_first finalizerName finalizers 0 i hi hfirst
    simpa using this

/-- C5 witness: concrete patches for the lists from the repository's
tests: append to `["a", "b"]`, whole-field add on `[]`, no-op when
present, test-and-remove at first index 1 in `["a", "F", "b"]`, and no-op
delete when absent. -/
theorem finalizerPatches_spec_witness :
  FinalizerAddPatch ["a", "b"] "F" = [.add "/metadata/finalizers/-" "F"]
  ∧ FinalizerAddPatch [] "F" = [.addList "/metadata/finalizers" ["F"]]
  ∧ FinalizerAddPatch ["a", "F", "b"] "F" = []
  ∧ FinalizerDeletePatch ["a", "F", "b"] "F"
      = some [.test "/metadata/finalizers/1" "F", .remove "/metadata/finalizers/1"]
  ∧ FinalizerDeletePatch ["a", "b"] "F" = none := by
  refine ⟨(finalizerPatches_spec ["a", "b"] "F").2.2.1 (by decide) (by decide),
    (finalizerPatches_spec [] "F").2.1 rfl,
    (finalizerPatches_spec ["a", "F", "b"] "F").1 (by decide),
    ?_, (finalizerPatches_spec ["a", "b"] "F").2.2.2.1 (by decide)⟩
  have h := (finalizerPatches_spec ["a", "F", "b"] "F").2.2.2.2 1 (by decide)
    (fun m hm => by
      have : m = 0 := by omega
      subst this
      decide)
  simpa using h

/-! ### RBAC capability checking (`IsAllowed`) -/

/-- Authorization attributes to check on a resource kind. -/
structure ResourceAttribute where
  resource : String
  name : String
  group : String
  version : String
  verbs : List String
deriving DecidableEq

/-- The attributes of one SelfSubjectAccessReview request (the field `ns`
models the Go field `Namespace`, a reserved word in Lean). -/
structure ResourceAttributes where
  verb : String
  group : String
  version : String
  resource : String
  name : String
  ns : String
deriving DecidableEq

/-- Build the request attributes for one (namespace, attribute, verb)
combination, with the special case equating namespace and name for a
named check on the core `namespaces` resource with no namespace given. -/
def mkResourceAttributes (ns verb : String) (ra : ResourceAttribute) : ResourceAttributes :=
  let a : ResourceAttributes := ⟨verb, ra.group, ra.version, ra.resource, ra.name, ns⟩
  if a.group = "" ∧ a.resource = "namespaces" ∧ a.name ≠ "" ∧ a.ns = ""
  then { a with ns := a.name } else a

/-- The denial reason recorded for a rejected combination, phrased for
the all-namespaces sentinel (the empty string) or a concrete namespace. -/
def denialReason (ns verb : String) (ra : ResourceAttribute) : String :=
  let resource := if ra.name ≠ "" then ra.resource ++ "/" ++ ra.name else ra.resource
  if ns = "" then
    "missing \"" ++ verb ++ "\" permission on resource \"" ++ resource
      ++ "\" (group: \"" ++ ra.group ++ "\") for all namespaces"
  else
    "missing \"" ++ verb ++ "\" permission on resource \"" ++ resource
      ++ "\" (group: \"" ++ ra.group ++ "\") for namespace \"" ++ ns ++ "\""

/-- The SelfSubjectAccessReview client: a check either fails at the
transport level or reports whether the action is allowed. -/
abbrev SSARClient := ResourceAttributes → Except String Bool

/-- Innermost loop of `IsAllowed` over the verbs of one attribute,
accumulating denial reasons. -/
def evalVerbs (client : SSARClient) (ns : String) (ra : ResourceAttribute) :
    List String → List String → Except String (List String)
  | [], acc => .ok acc
  | verb :: rest, acc =>
    match client (mkResourceAttributes ns verb ra) with
    | .error e => .error e
    | .ok allowed =>
      evalVerbs client ns ra rest (if allowed then acc else acc ++ [denialReason ns verb ra])

/-- Middle loop of `IsAllowed` over the resource attributes. -/
def evalAttributes (client : SSARClient) (ns : String) :
    List ResourceAttribute → List String → Except String (List String)
  | [], acc => .ok acc
  | ra :: rest, acc =>
    match evalVerbs client ns ra ra.verbs acc with
    | .error e => .error e
    | .ok acc2 => evalAttributes client ns rest acc2

/-- Outer loop of `IsAllowed` over the namespaces. -/
def evalNamespaces (client : SSARClient) :
    List String → List ResourceAttribute → List String → Except String (List String)
  | [], _, acc => .ok acc
  | ns :: rest, attrs, acc =>
    match evalAttributes client ns attrs acc with
    | .error e => .error e
    | .ok acc2 => evalNamespaces client rest attrs acc2

/-- `IsAllowed`: precondition check, namespace defaulting to the
all-namespaces sentinel, sequential evaluation of every combination with
fail-fast on transport errors, and the final (allowed, missing, error)
triple. -/
def IsAllowed (client : SSARClient) (namespaces : List String)
    (attributes : List ResourceAttribute) : Bool × List String × Option String :=
  if attributes.length = 0 then (false, [], some "resource attributes must not be empty")
  else
    let nss := if namespaces.length = 0 then [""] else namespaces
    match evalNamespaces client nss attributes [] with
    | .error e => (false, [], some e)
    | .ok missing => (missing.isEmpty, missing, none)

/-- The denial reasons a transport-error-free scan of one attribute's
verbs produces, in order. -/
def verbDenials (client : SSARClient) (ns : String) (ra : ResourceAttribute)
    (verbs : List String) : List String :=
  verbs.filterMap fun verb =>
    match client (mkResourceAttributes ns verb ra) with
    | .ok false => some (denialReason ns verb ra)
    | _ => none

/-- All denial reasons over namespaces × attributes × verbs, in scan
order. -/
def expectedDenials (client : SSARClient) (nss : List String)
    (attrs : List ResourceAttribute) : List String :=
  nss.flatMap fun ns => attrs.flatMap fun ra => verbDenials client ns ra ra.verbs

/-- With a transport-error-free client, the verb loop appends exactly the
denied combinations to the accumulator. -/
theorem evalVerbs_ok (client : SSARClient) (ns : String) (ra : ResourceAttribute)
    (hc : ∀ a, ∃ b, client a = Except.ok b) :
    ∀ (verbs acc : List String),
    evalVerbs client ns ra verbs acc = .ok (acc ++ verbDenials client ns ra verbs) := by
  intro verbs
  induction verbs with
  | nil => intro acc; simp [evalVerbs, verbDenials]
  | cons verb rest ih =>
    intro acc
    obtain ⟨b, hb⟩ := hc (mkResourceAttributes ns verb ra)
    cases b
    · simp [evalVerbs, verbDenials, hb, ih]
    · simp [evalVerbs, verbDenials, hb, ih]

/-- With a transport-error-free client, the attribute loop appends
exactly the denied combinations to the accumulator. -/
theorem evalAttributes_ok (client : SSARClient) (ns : String)
    (hc : ∀ a, ∃ b, client a = Except.ok b) :
    ∀ (attrs : List ResourceAttribute) (acc : List String),
    evalAttributes client ns attrs acc
      = .ok (acc ++ attrs.flatMap fun ra => verbDenials client ns ra ra.verbs) := by
  intro attrs
  induction attrs with
  | nil => intro acc; simp [evalAttributes]
  | cons ra rest ih =>
    intro acc
    simp [evalAttributes, evalVerbs_ok client ns ra hc, ih]

/-- With a transport-error-free client, the namespace loop appends
exactly the denied combinations to the accumulator. -/
theorem evalNamespaces_ok (client : SSARClient)
    (hc : ∀ a, ∃ b, client a = Except.ok b) :
    ∀ (nss : List String) (attrs : List ResourceAttribute) (acc : List String),
    evalNamespaces client nss attrs acc = .ok (acc ++ expectedDenials client nss attrs) := by
  intro nss
  induction nss with
  | nil => intro attrs acc; simp [evalNamespaces, expectedDenials]
  | cons ns rest ih =>
    intro attrs acc
    simp [evalNamespaces, evalAttributes_ok client ns hc, ih, expectedDenials]

/-- A transport error reported by the verb loop comes from a client
call. -/
theorem evalVerbs_error (client : SSARClient) (ns : String) (ra : ResourceAttribute) :
    ∀ (verbs acc : List String) (e : String),
    evalVerbs client ns ra verbs acc = .error e → ∃ a, client a = Except.error e := by
  intro verbs
  induction verbs with
  | nil => intro acc e h; simp [evalVerbs] at h
  | cons verb rest ih =>
    intro acc e h
    rw [evalVerbs] at h
    cases hb : client (mkResourceAttributes ns verb ra) with
    | error e2 =>
      rw [hb] at h
      exact ⟨_, hb.trans (congrArg Except.error (Except.error.injEq .. ▸ h))⟩
    | ok b =>
      rw [hb] at h
      exact ih _ e h

/-- A transport error reported by the attribute loop comes from a client
call. -/
theorem evalAttributes_error (client : SSARClient) (ns : String) :
    ∀ (attrs : List ResourceAttribute) (acc : List String) (e : String),
    evalAttributes client ns attrs acc = .error e → ∃ a, client a = Except.error e := by
  intro attrs
  induction attrs with
  | nil => intro acc e h; simp [evalAttributes] at h
  | cons ra rest ih =>
    intro acc e h
    rw [evalAttributes] at h
    cases hb : evalVerbs client ns ra ra.verbs acc with
    | error e2 =>
      rw [hb] at h
      obtain ⟨a, ha⟩ := evalVerbs_error client ns ra ra.verbs acc e2 hb
      exact ⟨a, ha.trans (congrArg Except.error (Except.error.injEq .. ▸ h))⟩
    | ok acc2 =>
      rw [hb] at h
      exact ih _ e h

/-- A transport error reported by the namespace loop comes from a client
call. -/
theorem evalNamespaces_error (client : SSARClient) :
    ∀ (nss : List String) (attrs : List ResourceAttribute) (acc : List String) (e : String),
    evalNamespaces client nss attrs acc = .error e → ∃ a, client a = Except.error e := by
  intro nss
  induction nss with
  | nil => intro attrs acc e h; simp [evalNamespaces] at h
  | cons ns rest ih =>
    intro attrs acc e h
    rw [evalNamespaces] at h
    cases hb : evalAttributes client ns attrs acc with
    | error e2 =>
      rw [hb] at h
      obtain ⟨a, ha⟩ := evalAttributes_error client ns attrs acc e2 hb
      exact ⟨a, ha.trans (congrArg Except.error (Except.error.injEq .. ▸ h))⟩
    | ok acc2 =>
      rw [hb] at h
      exact ih _ _ e h

/-- C7: `IsAllowed` errors immediately on zero resource attributes; any
returned error comes with an empty (no partial) denial list and a false
verdict, and (past the precondition) is a client transport error; with a
transport-error-free client the result lists one denial reason per denied
(namespace, attribute, verb) combination, in scan order; and in every
non-error outcome the verdict is true exactly when the denial list is
empty. -/
theorem isAllowed_spec (client : SSARClient) (namespaces : List String)
    (attributes : List ResourceAttribute) :
  (attributes = [] → IsAllowed client namespaces attributes
      = (false, [], some "resource attributes must not be empty"))
  ∧ (∀ e, (IsAllowed client namespaces attributes).2.2 = some e →
      (IsAllowed client namespaces attributes).1 = false
      ∧ (IsAllowed client namespaces attributes).2.1 = [])
  ∧ (∀ e, (IsAllowed client namespaces attributes).2.2 = some e → attributes ≠ [] →
      ∃ a, client a = Except.error e)
  ∧ (attributes ≠ [] → (∀ a, ∃ b, client a = Except.ok b) →
      IsAllowed client namespaces attributes
        = ((expectedDenials client
              (if namespaces.length = 0 then [""] else namespaces) attributes).isEmpty,
           expectedDenials client
              (if namespaces.length = 0 then [""] else namespaces) attributes, none))
  ∧ ((IsAllowed client namespaces attributes).2.2 = none →
      ((IsAllowed client namespaces attributes).1 = true
        ↔ (IsAllowed client namespaces attributes).2.1 = [])) := by
  refine ⟨?_, ?_, ?_, ?_, ?_⟩
  · intro h
    subst h
    rfl
  · intro e h
    by_cases hlen : attributes.length = 0
    · have h0 : attributes = [] := List.length_eq_zero.mp hlen
      subst h0
      exact ⟨rfl, rfl⟩
    · simp only [IsAllowed, if_neg hlen] at h ⊢
      cases hev : evalNamespaces client
          (if namespaces.length = 0 then [""] else namespaces) attributes [] with
      | error e2 => exact ⟨rfl, rfl⟩
      | ok missing => rw [hev] at h; simp at h
  · intro e h hne
    have hlen : ¬ attributes.length = 0 := by
      simpa [List.length_eq_zero] using hne
    simp only [IsAllowed, if_neg hlen] at h
    cases hev : evalNamespaces client
        (if namespaces.length = 0 then [""] else namespaces) attributes [] with
    | error e2 =>
      rw [hev] at h
      simp only [Option.some.injEq] at h
      exact h ▸ evalNamespaces_error client _ attributes [] e2 hev
    | ok missing =>
      rw [hev] at h
      simp at h
  · intro hne hc
    have hlen : ¬ attributes.length = 0 := by
      simpa [List.length_eq_zero] using hne
    simp only [IsAllowed, if_neg hlen]
    rw [evalNamespaces_ok client hc _ attributes []]
    simp
  · intro h
    by_cases hlen : attributes.length = 0
    · simp only [IsAllowed, if_pos hlen] at h
      simp at h
    · simp only [IsAllowed, if_neg hlen] at h ⊢
      cases hev : evalNamespaces client
          (if namespaces.length = 0 then [""] else namespaces) attributes [] with
      | error e2 => rw [hev] at h; simp at h
      | ok missing =>
        cases missing <;> simp

/-- C7 witness: with a client that grants only the verb `get`, the
requirement `{resource pods, verbs [get, list]}` over namespace `ns-1`
yields a false verdict with exactly the denial for `list`; with zero
attributes the precondition error is returned. -/
theorem isAllowed_spec_witness :
  IsAllowed (fun a => Except.ok (decide (a.verb = "get"))) ["ns-1"]
      [⟨"pods", "", "", "v1", ["get", "list"]⟩]
    = (false,
       ["missing \"list\" permission on resource \"pods\" (group: \"\") for namespace \"ns-1\""],
       none)
  ∧ IsAllowed (fun a => Except.ok (decide (a.verb = "get"))) ["ns-1"] []
    = (false, [], some "resource attributes must not be empty") := by
  constructor
  · have h := (isAllowed_spec (fun a => Except.ok (decide (a.verb = "get"))) ["ns-1"]
      [⟨"pods", "", "", "v1", ["get", "list"]⟩]).2.2.2.1 (by decide)
      (fun a => ⟨decide (a.verb = "get"), rfl⟩)
    rw [h]
    decide
  · exact (isAllowed_spec (fun a => Except.ok (decide (a.verb = "get"))) ["ns-1"] []).1 rfl

/-! ### StatefulSet immutable-field fallback (`ForceUpdateStatefulSet`)
and the `updateStatefulSet` write (`mergeKubectlAnnotations`) -/

/-- A Go error as observed by `ForceUpdateStatefulSet`: a structured API
status error (with its HTTP code, machine-readable reason and the
human-readable cause messages of its details), any other error, or an
error wrapped with a context string by `fmt.Errorf("...: %w", err)`. -/
inductive GoError where
  | statusError (code : Nat) (reason : String) (causes : List String)
  | other (msg : String)
  | wrapped (ctx : String) (err : GoError)
deriving DecidableEq

/-- `strings.Join`. -/
def goStrJoin (sep : String) : List String → String
  | [] => ""
  | [s] => s
  | s :: rest => s ++ sep ++ goStrJoin sep rest

/-- Whether the update error is a `*apierrors.StatusError` carrying code
422 and reason `Invalid` (the type assertion fails on any other
constructor, including wrapped errors). -/
def isInvalid422 : GoError → Bool
  | .statusError code reason _ => code = 422 && reason = "Invalid"
  | _ => false

/-- The observable outcome of one `ForceUpdateStatefulSet` call. -/
structure ForceUpdateOutcome where
  callbackMsg : Option String
  deletedWithForeground : Bool
  result : Option GoError
deriving DecidableEq

/-- `ForceUpdateStatefulSet`, as a function of the update attempt's error
(`none` when the update succeeded), of whether the caller supplied a
callback, and of the outcome the foreground-propagation delete would
produce.  `callbackMsg` records the joined cause string passed to the
callback when it is invoked. -/
def ForceUpdateStatefulSet (updateErr : Option GoError) (hasOnDelete : Bool)
    (deleteResult : Option GoError) : ForceUpdateOutcome :=
  match updateErr with
  | none => ⟨none, false, none⟩
  | some e =>
    match e with
    | .statusError code reason causes =>
      if code = 422 ∧ reason = "Invalid" then
        ⟨if hasOnDelete then some (goStrJoin ", " causes) else none, true, deleteResult⟩
      else
        ⟨none, false, some (.wrapped "failed to update StatefulSet: "
          (.statusError code reason causes))⟩
    | e => ⟨none, false, some (.wrapped "failed to update StatefulSet: " e)⟩

/-- C8: on a structured 422/Invalid rejection, `ForceUpdateStatefulSet`
invokes the callback (when supplied) with the cause messages joined by
`", "`, deletes with foreground propagation and returns the deletion's
outcome; on any other update error it returns that error wrapped with
`"failed to update StatefulSet: "` and performs no deletion and no
callback. -/
theorem forceUpdateStatefulSet_spec (code : Nat) (reason : String)
    (causes : List String) (deleteResult : Option GoError) (e : GoError) :
  (code = 422 → reason = "Invalid" →
    ForceUpdateStatefulSet (some (.statusError code reason causes)) true deleteResult
      = ⟨some (goStrJoin ", " causes), true, deleteResult⟩)
  ∧ (code = 422 → reason = "Invalid" →
    ForceUpdateStatefulSet (some (.statusError code reason causes)) false deleteResult
      = ⟨none, true, deleteResult⟩)
  ∧ (isInvalid422 e = false →
    ForceUpdateStatefulSet (some e) true deleteResult
      = ⟨none, false, some (.wrapped "failed to update StatefulSet: " e)⟩)
  ∧ ForceUpdateStatefulSet none true deleteResult = ⟨none, false, none⟩ := by
  refine ⟨?_, ?_, ?_, rfl⟩
  · intro hc hr
    subst hc hr
    simp [ForceUpdateStatefulSet]
  · intro hc hr
    subst hc hr
    simp [ForceUpdateStatefulSet]
  · intro hinv
    cases e with
    | statusError c r cs =>
      simp only [isInvalid422, Bool.and_eq_true, decide_eq_true_eq] at hinv
      have : ¬ (c = 422 ∧ r = "Invalid") := by
        intro ⟨h1, h2⟩
        simp [h1, h2] at hinv
      simp [ForceUpdateStatefulSet, this]
    | other m => rfl
    | wrapped c err => rfl

/-- C8 witness: a 422/Invalid rejection with two causes leads to the
callback message `"cause-a, cause-b"` and a foreground deletion returning
the delete outcome; a plain error is wrapped and nothing is deleted. -/
theorem forceUpdateStatefulSet_spec_witness :
  ForceUpdateStatefulSet
      (some (.statusError 422 "Invalid" ["cause-a", "cause-b"])) true (some (.other "boom"))
    = ⟨some "cause-a, cause-b", true, some (.other "boom")⟩
  ∧ ForceUpdateStatefulSet (some (.other "transient")) true none
    = ⟨none, false, some (.wrapped "failed to update StatefulSet: " (.other "transient"))⟩ := by
  constructor
  · have h := (forceUpdateStatefulSet_spec 422 "Invalid" ["cause-a", "cause-b"]
      (some (.other "boom")) (.other "x")).1 rfl rfl
    rw [h]
    decide
  · exact (forceUpdateStatefulSet_spec 0 "" [] none (.other "transient")).2.2.1 rfl

/-- A StatefulSet as seen by `updateStatefulSet`: its object metadata and
its pod-template metadata. -/
structure StatefulSetModel where
  meta : ObjectMeta
  templateMeta : ObjectMeta

/-- The annotation key pfx owned by kubectl. -/
def kubectlPfx : String := "kubectl.kubernetes.io/"

/-- `mergeKubectlAnnotations(from, to)`: store on `from` the map obtained
by inserting into `to` every annotation of `from` whose key carries the
kubectl pfx. -/
def mergeKubectlAnnotations (fromMeta : ObjectMeta) (toMeta : ObjectMeta) : ObjectMeta :=
  { fromMeta with
    annotations := some (mergeMapsByPrefix fromMeta.annotations toMeta.annotations kubectlPfx) }

/-- The object passed to Update by one iteration of `updateStatefulSet`,
given the desired object `sset` and the `Get` result `existing`.  The
call `mergeKubectlAnnotations(&existing.Spec.Template.ObjectMeta,
sset.Spec.Template.ObjectMeta)` inserts the kubectl-pfx annotations of
the existing template into the desired template's annotation map *in
place* (Go maps are reference values), so the written object observes the
merged map exactly when the desired template's map is non-nil; when it is
nil, `mergeMapsByPrefix` allocates a fresh map that only the existing
(local) copy receives and the written object keeps its nil map. -/
def updateStatefulSetWritten (sset existing : StatefulSetModel) : StatefulSetModel :=
  let meta := mergeMetadata sset.meta existing.meta
  let tmplAnn : Gmap :=
    match sset.templateMeta.annotations with
    | none => none
    | some _ => some (mergeMapsByPrefix existing.templateMeta.annotations
        sset.templateMeta.annotations kubectlPfx)
  ⟨meta, { sset.templateMeta with annotations := tmplAnn }⟩

/-- C9 counterexample: when the desired object carries a nil template
annotation map, a kubectl-pfx annotation present on the existing object
(`restartedAt ↦ yesterday`) does NOT end up in the written object — its
template annotations stay nil — refuting the claim for that input. -/
theorem updateStatefulSet_kubectl_counterexample :
  goHasPfxS kubectlPfx "kubectl.kubernetes.io/restartedAt" = true
  ∧ glookup (StatefulSetModel.templateMeta
      ⟨⟨"1", none, none, []⟩,
       ⟨"", none, mapOf [("kubectl.kubernetes.io/restartedAt", "yesterday")], []⟩⟩).annotations
      "kubectl.kubernetes.io/restartedAt" = some "yesterday"
  ∧ glookup (updateStatefulSetWritten
      ⟨⟨"", none, none, []⟩, ⟨"", none, none, []⟩⟩
      ⟨⟨"1", none, none, []⟩,
       ⟨"", none, mapOf [("kubectl.kubernetes.io/restartedAt", "yesterday")], []⟩⟩
      ).templateMeta.annotations "kubectl.kubernetes.io/restartedAt" = none := by
  refine ⟨by decide, by decide, rfl⟩

/-- C9 (amended): whenever the desired object's template annotation map
is non-nil, every kubectl-pfx annotation present on the existing object
ends up in the written object with the existing object's value,
overriding any value the desired object carried for that key; in
particular an externally set `restartedAt ↦ yesterday` survives an
operator update proposing `restartedAt ↦ now`. -/
theorem updateStatefulSet_kubectl_spec :
  (∀ (sset existing : StatefulSetModel) (m : Smap) (k v : String),
    sset.templateMeta.annotations = some m →
    goHasPfxS kubectlPfx k = true →
    glookup existing.templateMeta.annotations k = some v →
    glookup (updateStatefulSetWritten sset existing).templateMeta.annotations k = some v)
  ∧ glookup (updateStatefulSetWritten
      ⟨⟨"", none, none, []⟩,
       ⟨"", none, mapOf [("kubectl.kubernetes.io/restartedAt", "now")], []⟩⟩
      ⟨⟨"1", none, none, []⟩,
       ⟨"", none, mapOf [("kubectl.kubernetes.io/restartedAt", "yesterday")], []⟩⟩
      ).templateMeta.annotations "kubectl.kubernetes.io/restartedAt"
      = some "yesterday" := by
  constructor
  · intro sset existing m k v hm hp hv
    simp only [updateStatefulSetWritten, hm]
    exact mergeMapsByPrefix_from hp hv
  · decide

/-- C9 witness: the general statement applied to the concrete
yesterday/now scenario, with every hypothesis discharged. -/
theorem updateStatefulSet_kubectl_spec_witness :
  glookup (updateStatefulSetWritten
      ⟨⟨"", none, none, []⟩,
       ⟨"", none, mapOf [("kubectl.kubernetes.io/restartedAt", "now"), ("other", "x")], []⟩⟩
      ⟨⟨"9", none, none, []⟩,
       ⟨"", none, mapOf [("kubectl.kubernetes.io/restartedAt", "yesterday")], []⟩⟩
      ).templateMeta.annotations "kubectl.kubernetes.io/restartedAt"
      = some "yesterday" :=
  (updateStatefulSet_kubectl_spec).1
    ⟨⟨"", none, none, []⟩,
     ⟨"", none, mapOf [("kubectl.kubernetes.io/restartedAt", "now"), ("other", "x")], []⟩⟩
    ⟨⟨"9", none, none, []⟩,
     ⟨"", none, mapOf [("kubectl.kubernetes.io/restartedAt", "yesterday")], []⟩⟩
    (assocLookup [("kubectl.kubernetes.io/restartedAt", "now"), ("other", "x")])
    "kubectl.kubernetes.io/restartedAt" "yesterday" rfl (by decide) (by decide)
